import Mathlib

/-!
Shallow embedding of the football-data pipeline (step1 → step2 → step7 and
the step27 history store), translated from the Python sources in src/.
The merge stage (src/step2.py) is the core: odds minute-filtering,
decimal / Hong-Kong → American odds conversion, betting-company selection,
and foreign-key resolution.  Machine floats are modelled as exact rationals;
Python exceptions are modelled with Option / Except.
-/

namespace Pipeline

/-- JSON-like scalar values occurring in odds-entry slots: numbers
(modelled exactly as rationals), strings, and null. -/
inductive JVal where
  | num (q : ℚ)
  | str (s : String)
  | null
deriving Repr, DecidableEq

/-- An odds entry is a heterogeneous JSON array
[timestamp, minute, val1, val2, val3, status, sealed, score]. -/
abbrev Entry := List JVal

/-- Numeric value of a nonempty list of decimal digit characters. -/
def digitsVal (cs : List Char) : Option ℕ :=
  if cs.isEmpty then none
  else cs.foldl (fun acc c =>
    acc.bind (fun n => if c.isDigit then some (n * 10 + (c.toNat - 48)) else none))
    (some 0)

/-- Strip leading and trailing spaces, as Python int() / float() do. -/
def trimSpaces (cs : List Char) : List Char :=
  ((cs.dropWhile (· = ' ')).reverse.dropWhile (· = ' ')).reverse

/-- Model of Python int() on a string: optional surrounding spaces, an
optional sign, then one or more decimal digits; anything else raises
ValueError, modelled as none. -/
def pyIntOfString (s : String) : Option ℤ :=
  match trimSpaces s.toList with
  | '-' :: rest => (digitsVal rest).map (fun n => -(n : ℤ))
  | '+' :: rest => (digitsVal rest).map (fun n => (n : ℤ))
  | cs => (digitsVal cs).map (fun n => (n : ℤ))

/-- Truncation toward zero, the behaviour of Python int() on a float. -/
def ratTrunc (q : ℚ) : ℤ := if 0 ≤ q then ⌊q⌋ else ⌈q⌉

/-- Model of Python int() applied to a JSON scalar: floats truncate toward
zero, strings are parsed, None raises TypeError (none). -/
def pyInt : JVal → Option ℤ
  | .num q => some (ratTrunc q)
  | .str s => pyIntOfString s
  | .null => none

/-- Digits of an unsigned decimal literal folded to a natural number
(used for the integer and fractional parts of a float literal). -/
def digitsFold (cs : List Char) : ℕ :=
  cs.foldl (fun n c => n * 10 + (c.toNat - 48)) 0

/-- Value of a decimal literal with integer part ip and fractional part fp,
requiring every character to be a digit and at least one digit overall. -/
def decimalVal (ip fp : List Char) : Option ℚ :=
  if ip.all Char.isDigit ∧ fp.all Char.isDigit ∧ (ip ≠ [] ∨ fp ≠ []) then
    some ((digitsFold ip : ℚ) + (digitsFold fp : ℚ) / (10 : ℚ) ^ fp.length)
  else none

/-- Split a character list at the first dot. -/
def splitAtDot : List Char → List Char × Option (List Char)
  | [] => ([], none)
  | '.' :: rest => ([], some rest)
  | c :: rest =>
    let p := splitAtDot rest
    (c :: p.1, p.2)

/-- Model of Python float() on a string: optional spaces and sign, then a
plain decimal literal (exponent forms, inf and nan are not used by this
repository's data and are not modelled). -/
def pyFloatOfString (s : String) : Option ℚ :=
  let core : List Char → Option ℚ := fun cs =>
    let p := splitAtDot cs
    decimalVal p.1 (p.2.getD [])
  match trimSpaces s.toList with
  | '-' :: rest => (core rest).map Neg.neg
  | '+' :: rest => core rest
  | cs => core cs

/-- Model of Python float() applied to a JSON scalar; None raises TypeError
(none). -/
def pyFloat : JVal → Option ℚ
  | .num q => some q
  | .str s => pyFloatOfString s
  | .null => none

/-- Python round() to an integer: round half to even (banker's rounding). -/
def pyRound (q : ℚ) : ℤ :=
  if q - (⌊q⌋ : ℚ) < 1 / 2 then ⌊q⌋
  else if 1 / 2 < q - (⌊q⌋ : ℚ) then ⌊q⌋ + 1
  else if ⌊q⌋ % 2 = 0 then ⌊q⌋ else ⌊q⌋ + 1

/-- step2.convert_decimal_to_american.  float() failures return none via the
except clause; at d = 1 the division -100 / (d - 1) raises
ZeroDivisionError, also caught and returned as none. -/
def convert_decimal_to_american (decimal_odd : JVal) : Option ℤ :=
  match pyFloat decimal_odd with
  | none => none
  | some d =>
    if 2 ≤ d then some (pyRound ((d - 1) * 100))
    else if 1 ≤ d then
      if d = 1 then none else some (pyRound (-100 / (d - 1)))
    else none

/-- step2.convert_hong_kong_to_american.  float() failures return none; the
h = 0 case never divides (it falls to the else branch). -/
def convert_hong_kong_to_american (hk_odd : JVal) : Option ℤ :=
  match pyFloat hk_odd with
  | none => none
  | some h =>
    if 1 ≤ h then some (pyRound (h * 100))
    else if 0 < h then some (pyRound (-100 / h))
    else none

/-- The inner format_american helper of step2.convert_odds_array, applied to
a converted odds value: None passes through as null, positive integers get
a leading plus sign, the rest render as Python str(int(v)). -/
def format_american : Option ℤ → JVal
  | none => JVal.null
  | some v => if 0 < v then .str ("+" ++ toString v) else .str (toString v)

/-- Per-entry conversion inside step2.convert_odds_array for entries with at
least 8 slots.  For the money line all three value slots are decimal odds;
for spread, over/under and corners the outer slots are Hong Kong odds and
the middle slot (the handicap or total line) passes through unchanged. -/
def convertEntry (odds_type : String) (e : Entry) : Entry :=
  let timestamp := e.getD 0 JVal.null
  let minute := e.getD 1 JVal.null
  let val1 := e.getD 2 JVal.null
  let val2 := e.getD 3 JVal.null
  let val3 := e.getD 4 JVal.null
  let status := e.getD 5 JVal.null
  let sealed := e.getD 6 JVal.null
  let score := e.getD 7 JVal.null
  if odds_type = "money_line" then
    [timestamp, minute,
     format_american (convert_decimal_to_american val1),
     format_american (convert_decimal_to_american val2),
     format_american (convert_decimal_to_american val3),
     status, sealed, score]
  else
    [timestamp, minute,
     format_american (convert_hong_kong_to_american val1),
     val2,
     format_american (convert_hong_kong_to_american val3),
     status, sealed, score]

/-- step2.convert_odds_array: returns the original array unchanged paired
with the American-format array; entries with fewer than 8 slots are skipped
in the American array. -/
def convert_odds_array (odds_array : List Entry) (odds_type : String) :
    List Entry × List Entry :=
  (odds_array,
   (odds_array.filter (fun e => decide (8 ≤ e.length))).map (convertEntry odds_type))

/-- The minute value used by step2.filter_odds_by_minutes:
int(minute_field) if minute_field is not the empty string, else -1;
unparseable values raise ValueError / TypeError, modelled as none. -/
def minuteValue : JVal → Option ℤ
  | .str "" => some (-1)
  | v => pyInt v

/-- The acceptance test of step2.filter_odds_by_minutes on one entry: it
must have at least 2 slots, its minute slot must convert to an integer, and
that integer must lie in [min_minute, max_minute] inclusive; on success the
parsed minute is returned. -/
def entryMinute (min_minute max_minute : ℤ) (e : Entry) : Option ℤ :=
  if 2 ≤ e.length then
    match minuteValue (e.getD 1 JVal.null) with
    | some m => if min_minute ≤ m ∧ m ≤ max_minute then some m else none
    | none => none
  else none

/-- The minute-m group of an odds array: the accepted entries whose parsed
minute is m, in input order, exactly as minute_entries[m] is built. -/
def minuteGroup (min_minute max_minute : ℤ) (arr : List Entry) (m : ℤ) : List Entry :=
  arr.filter (fun e => decide (entryMinute min_minute max_minute e = some m))

/-- First slot of an entry, the timestamp used as the sort key. -/
def tsOf (e : Entry) : JVal := e.getD 0 JVal.null

/-- Total order on JVal used for the timestamp sort key.  Python would raise
TypeError on a cross-type comparison; the source only ever sorts homogeneous
timestamp slots, and this total extension agrees with Python there:
numbers by value and strings lexicographically. -/
def jleB : JVal → JVal → Bool
  | .num a, .num b => decide (a ≤ b)
  | .num _, _ => true
  | .str _, .num _ => false
  | .str a, .str b => decide (a ≤ b)
  | .str _, _ => true
  | .null, .null => true
  | .null, _ => false

/-- Timestamp ordering on entries, the key function of the sorted() call in
step2.filter_odds_by_minutes. -/
def tsRel (a b : Entry) : Prop := jleB (tsOf a) (tsOf b) = true

instance : DecidableRel tsRel := fun a b => by unfold tsRel; infer_instance

/-- sorted(entries_for_minute, key = first slot) followed by taking the last
element, as in step2.filter_odds_by_minutes.  insertionSort is stable, as
Python sorted is, so the two agree exactly, ties included. -/
def lastByTimestamp (entries : List Entry) : Entry :=
  (List.insertionSort tsRel entries).getLastD []

/-- The sorted list of distinct minutes present after acceptance, as in
sorted(minute_entries.keys()). -/
def minuteKeys (min_minute max_minute : ℤ) (arr : List Entry) : List ℤ :=
  List.insertionSort (· ≤ ·) ((arr.filterMap (entryMinute min_minute max_minute)).dedup)

/-- The per-market body of step2.filter_odds_by_minutes: for each minute in
ascending order keep the accepted entry with the highest timestamp. -/
def filterMarket (min_minute max_minute : ℤ) (arr : List Entry) : List Entry :=
  (minuteKeys min_minute max_minute arr).map
    (fun m => lastByTimestamp (minuteGroup min_minute max_minute arr m))

/-- One company's odds mapping with the descriptive market names assigned by
step2.extract_odds. -/
structure CompanyOdds where
  money_line : List Entry := []
  spread : List Entry := []
  over_under : List Entry := []
  corners : List Entry := []
deriving Repr, DecidableEq

/-- step2.filter_odds_by_minutes over the four-market mapping produced by
extract_odds (which always populates all four keys). -/
def filter_odds_by_minutes (odds_data : CompanyOdds)
    (min_minute : ℤ := 2) (max_minute : ℤ := 6) : CompanyOdds :=
  { money_line := filterMarket min_minute max_minute odds_data.money_line
    spread := filterMarket min_minute max_minute odds_data.spread
    over_under := filterMarket min_minute max_minute odds_data.over_under
    corners := filterMarket min_minute max_minute odds_data.corners }

/-- One company's odds under the upstream field names, before
step2.extract_odds renames them. -/
structure ApiCompanyOdds where
  eu : List Entry := []
  asia : List Entry := []
  bs : List Entry := []
  cr : List Entry := []
deriving Repr, DecidableEq

/-- step2.extract_odds: map the upstream market keys to descriptive names,
company by company. -/
def extract_odds (odds : List (String × ApiCompanyOdds)) : List (String × CompanyOdds) :=
  odds.map (fun p =>
    (p.1, { money_line := p.2.eu, spread := p.2.asia
            over_under := p.2.bs, corners := p.2.cr }))

/-- step2.PREFERRED_COMPANIES, the fixed preference order (BET365 first). -/
def PREFERRED_COMPANIES : List String :=
  ["2", "3", "4", "5", "6", "9", "10", "11", "13", "14", "15", "16", "17", "21", "22"]

/-- step2.BETTING_COMPANIES, the company id → display name table. -/
def BETTING_COMPANIES : List (String × String) :=
  [("2", "BET365"), ("3", "Crown"), ("4", "10BET"), ("5", "Ladbrokes"),
   ("6", "Mansion88"), ("7", "Macauslot"), ("8", "SNAI"), ("9", "William Hill"),
   ("10", "Easybets"), ("11", "Vcbet"), ("12", "EuroBet"), ("13", "Interwetten"),
   ("14", "12bet"), ("15", "Sbobet"), ("16", "Wewbet"), ("17", "18Bet"),
   ("18", "Fun88"), ("21", "188bet"), ("22", "Pinnacle")]

/-- The has_data check in step2.merge_and_summarize: at least one non-empty
market among money_line, spread and over_under; corners does not count. -/
def hasData (co : CompanyOdds) : Bool :=
  !co.money_line.isEmpty || !co.spread.isEmpty || !co.over_under.isEmpty

/-- The per-company test of the selection loop: the company appears in the
extracted odds and has_data holds.  (The raw_odds[company_id] truthiness
test of the source is vacuous: extract_odds always builds a four-key
mapping.) -/
def qualifies (raw_odds : List (String × CompanyOdds)) (cid : String) : Bool :=
  match raw_odds.lookup cid with
  | some co => hasData co
  | none => false

/-- The company-selection loop of step2.merge_and_summarize: the first id in
PREFERRED_COMPANIES that qualifies. -/
def selectCompany (raw_odds : List (String × CompanyOdds)) : Option String :=
  PREFERRED_COMPANIES.find? (qualifies raw_odds)

/-- The odds-related summary fields set by step2.merge_and_summarize. -/
structure OddsFields where
  money_line : List Entry := []
  money_line_american : List Entry := []
  spread : List Entry := []
  spread_american : List Entry := []
  over_under : List Entry := []
  over_under_american : List Entry := []
  corners : List Entry := []
  corners_american : List Entry := []
  odds_company_id : Option String := none
  odds_company_name : Option String := none
  odds : List (String × CompanyOdds) := []
deriving Repr, DecidableEq

/-- The odds block of step2.merge_and_summarize: select a company on the
raw (unfiltered) arrays, then publish the minute-filtered arrays and their
American conversions; with no qualifying company publish empty arrays and
null company fields. -/
def buildOddsFields (raw_odds : List (String × CompanyOdds)) : OddsFields :=
  match selectCompany raw_odds with
  | some cid =>
    let selected := filter_odds_by_minutes ((raw_odds.lookup cid).getD {})
    let ml := convert_odds_array selected.money_line "money_line"
    let sp := convert_odds_array selected.spread "spread"
    let ou := convert_odds_array selected.over_under "over_under"
    let cr := convert_odds_array selected.corners "corners"
    { money_line := ml.1, money_line_american := ml.2
      spread := sp.1, spread_american := sp.2
      over_under := ou.1, over_under_american := ou.2
      corners := cr.1, corners_american := cr.2
      odds_company_id := some cid
      odds_company_name := some ((BETTING_COMPANIES.lookup cid).getD ("Company " ++ cid))
      odds := [(cid, selected)] }
  | none => {}

/-- The detail record for a match: the first element of the wrapper's
results list, carrying the authoritative foreign keys. -/
structure DetailRecord where
  home_team_id : String := ""
  away_team_id : String := ""
  competition_id : String := ""
  status_id : Option ℤ := none
deriving Repr, DecidableEq

/-- A team_info record (only the fields the merge reads). -/
structure TeamRecord where
  name : Option String := none
deriving Repr, DecidableEq

/-- A competition_info record (only the fields the merge reads). -/
structure CompRecord where
  name : Option String := none
  country_id : String := ""
deriving Repr, DecidableEq

/-- A country record from the country lookup built in step2.main. -/
structure CountryRecord where
  name : Option String := none
deriving Repr, DecidableEq

/-- A live match as fetched by step1: a numeric id (already through str()),
an optional status and the running score lists.  Team, league and odds
sub-objects are attached later by the merge itself. -/
structure RawMatch where
  id : String := ""
  status_id : Option ℤ := none
  home_scores : List ℤ := []
  away_scores : List ℤ := []
deriving Repr, DecidableEq

/-- Python exceptions that can escape the merge loop. -/
inductive PyErr where
  | attributeError
deriving Repr, DecidableEq

/-- Team-name resolution: the lookup fires only for a truthy id present in
team_info with a nonempty results list, and reads the name with an
"Unknown" default; on a miss extract_summary_fields defaults to
"Unknown". -/
def resolveTeamName (team_info : List (String × List TeamRecord)) (tid : String) : String :=
  if tid ≠ "" then
    match (team_info.lookup tid).bind List.head? with
    | some t => t.name.getD "Unknown"
    | none => "Unknown"
  else "Unknown"

/-- Competition and country resolution: on a competition hit the country is
looked up through the competition's country_id (defaulting to "Unknown");
on a miss both fall back to "Unknown" via extract_summary_fields. -/
def resolveCompetition (competition_info : List (String × List CompRecord))
    (countries : List (String × CountryRecord)) (cid : String) : String × String :=
  if cid ≠ "" then
    match (competition_info.lookup cid).bind List.head? with
    | some c =>
      let countryName :=
        if c.country_id ≠ "" ∧ countries ≠ [] then
          match countries.lookup c.country_id with
          | some cd => cd.name.getD "Unknown"
          | none => "Unknown"
        else "Unknown"
      (c.name.getD "Unknown", countryName)
    | none => ("Unknown", "Unknown")
  else ("Unknown", "Unknown")

/-- The score string built by extract_summary_fields. -/
def scoreOf (m : RawMatch) : String :=
  toString (m.home_scores.getLastD 0) ++ "-" ++ toString (m.away_scores.getLastD 0)

/-- The flattened per-match summary (the claim-relevant fields of
extract_summary_fields plus the odds block; presentation-only string fields
such as venue and kickoff are omitted). -/
structure Summary where
  match_id : String := ""
  home : String := "Unknown"
  away : String := "Unknown"
  home_id : String := ""
  away_id : String := ""
  score : String := "0-0"
  status_id : ℤ := 0
  competition : String := "Unknown"
  competition_id : String := ""
  country : String := "Unknown"
  oddsF : OddsFields := {}
deriving Repr, DecidableEq

/-- Per-match body of step2.merge_and_summarize.  The source initializes the
home/away/league sub-objects, merges truthy ids from the detail record,
resolves names through the lookup maps with "Unknown" fallbacks, and builds
the odds block.  When the match has no detail record, details is None and
the source expression
  match.get("home", ...).get("id", "") or details.get("home_team_id", "")
dereferences None and raises AttributeError; that exception is the error
case of the Except. -/
def summarizeMatch (m : RawMatch)
    (match_details : List (String × List DetailRecord))
    (match_odds : List (String × List (String × ApiCompanyOdds)))
    (team_info : List (String × List TeamRecord))
    (competition_info : List (String × List CompRecord))
    (countries : List (String × CountryRecord)) : Except PyErr Summary := do
  let mid := m.id
  let details : Option DetailRecord := (match_details.lookup mid).bind List.head?
  let homeObjId : String := match details with
    | some d => if d.home_team_id ≠ "" then d.home_team_id else ""
    | none => ""
  let awayObjId : String := match details with
    | some d => if d.away_team_id ≠ "" then d.away_team_id else ""
    | none => ""
  let leagueObjId : String := match details with
    | some d => if d.competition_id ≠ "" then d.competition_id else ""
    | none => ""
  let status : Option ℤ := match m.status_id with
    | some s => some s
    | none => details.bind (fun d => d.status_id)
  let odds : List (String × ApiCompanyOdds) := (match_odds.lookup mid).getD []
  let fallbackId : String → (DetailRecord → String) → Except PyErr String :=
    fun attached f =>
      if attached ≠ "" then .ok attached
      else match details with
        | some d => .ok (f d)
        | none => .error .attributeError
  let home_team_id ← fallbackId homeObjId (fun d => d.home_team_id)
  let away_team_id ← fallbackId awayObjId (fun d => d.away_team_id)
  let homeName := resolveTeamName team_info home_team_id
  let awayName := resolveTeamName team_info away_team_id
  let comp_id ← fallbackId leagueObjId (fun d => d.competition_id)
  let comp := resolveCompetition competition_info countries comp_id
  let raw_odds := extract_odds odds
  pure
    { match_id := mid
      home := homeName
      away := awayName
      home_id := homeObjId
      away_id := awayObjId
      score := scoreOf m
      status_id := status.getD 0
      competition := comp.1
      competition_id := leagueObjId
      country := comp.2
      oddsF := buildOddsFields raw_odds }

/-- step2.merge_and_summarize: summarize each live match in order, skipping
matches with a falsy id; an uncaught exception aborts the whole merge. -/
def merge_and_summarize (live_matches : List RawMatch)
    (match_details : List (String × List DetailRecord))
    (match_odds : List (String × List (String × ApiCompanyOdds)))
    (team_info : List (String × List TeamRecord))
    (competition_info : List (String × List CompRecord))
    (countries : List (String × CountryRecord)) : Except PyErr (List Summary) :=
  live_matches.foldl (fun acc m => do
    let s ← acc
    if m.id = "" then pure s
    else do
      let x ← summarizeMatch m match_details match_odds team_info competition_info countries
      pure (s ++ [x]))
    (pure [])

/-- The two input failures step2.main catches explicitly. -/
inductive LoadError where
  | fileNotFound
  | jsonDecode
deriving Repr, DecidableEq

/-- The fetch document consumed by step2.main. -/
structure Step1Doc where
  live_matches : List RawMatch := []
  match_details : List (String × List DetailRecord) := []
  match_odds : List (String × List (String × ApiCompanyOdds)) := []
  team_info : List (String × List TeamRecord) := []
  competition_info : List (String × List CompRecord) := []
  countries : List (String × CountryRecord) := []

/-- Observable outcome of one step2.main invocation. -/
structure MainOutcome where
  output : Option (List Summary)
  raised : Bool
deriving Repr, DecidableEq

/-- step2.main with its file I/O modelled by an Except-valued input: a
missing input file or a JSON decode failure is caught and logged and main
returns normally having written nothing; any other exception escaping the
merge is re-raised by the generic handler. -/
def mainStep2 (input : Except LoadError Step1Doc) : MainOutcome :=
  match input with
  | .error _ => { output := none, raised := false }
  | .ok doc =>
    match merge_and_summarize doc.live_matches doc.match_details doc.match_odds
        doc.team_info doc.competition_info doc.countries with
    | .error _ => { output := none, raised := true }
    | .ok s => { output := some s, raised := false }

/-- step27's history cap constant. -/
def MAX_HISTORY_ENTRIES : ℕ := 5

/-- The history update inside step27.save_match_summaries: when the stored
history has already reached MAX_HISTORY_ENTRIES it is first trimmed to its
last MAX_HISTORY_ENTRIES elements, and the new batch is then appended. -/
def appendBatch {α : Type} (history : List α) (batch : α) : List α :=
  let h := if MAX_HISTORY_ENTRIES ≤ history.length
    then history.drop (history.length - MAX_HISTORY_ENTRIES)
    else history
  h ++ [batch]

/-- step7.STATUS_FILTER, the in-play status set. -/
def STATUS_FILTER : List ℤ := [2, 3, 4, 5, 6, 7]

/-- The fields of a step2 summary that step7's filter and sort read. -/
structure M7 where
  match_id : String := ""
  status_id : Option ℤ := none
  competition : Option String := none
deriving Repr, DecidableEq

/-- The status filter of step7.run_step7: keep a summary iff its status_id
is a member of STATUS_FILTER (an absent status is never a member). -/
def filterStep7 (raw_matches : List (String × M7)) : List (String × M7) :=
  raw_matches.filter (fun p =>
    match p.2.status_id with
    | some s => decide (s ∈ STATUS_FILTER)
    | none => false)

/-- status_order.get(status_id, 99): the fixed priority of the in-play
sequence 2,3,4,5,6,7, with 99 for anything else or absent. -/
def statusOrder (s : Option ℤ) : ℤ :=
  match s with
  | some 2 => 1
  | some 3 => 2
  | some 4 => 3
  | some 5 => 4
  | some 6 => 5
  | some 7 => 6
  | _ => 99

/-- Within-group ordering of step7.sort_matches_by_competition_and_time:
by status priority, then by the summary's match_id string. -/
def m7Rel (a b : String × M7) : Prop :=
  statusOrder a.2.status_id < statusOrder b.2.status_id ∨
    (statusOrder a.2.status_id = statusOrder b.2.status_id ∧ a.2.match_id ≤ b.2.match_id)

instance : DecidableRel m7Rel := fun a b => by unfold m7Rel; infer_instance

/-- Append a match to its competition group, creating the group (and fixing
its country) on first sight, preserving first-seen group order. -/
def addToGroup (groups : List (String × String × List (String × M7)))
    (comp country : String) (p : String × M7) :
    List (String × String × List (String × M7)) :=
  match groups with
  | [] => [(comp, country, [p])]
  | g :: rest =>
    if g.1 = comp then (g.1, g.2.1, g.2.2 ++ [p]) :: rest
    else g :: addToGroup rest comp country p

/-- The falsy-country fallback in the competition sort key:
item country or "Unknown". -/
def countryKey (c : String) : String := if c = "" then "Unknown" else c

/-- Competition-group ordering: by (country, competition name). -/
def groupRel (a b : String × String × List (String × M7)) : Prop :=
  countryKey a.2.1 < countryKey b.2.1 ∨
    (countryKey a.2.1 = countryKey b.2.1 ∧ a.1 ≤ b.1)

instance : DecidableRel groupRel := fun a b => by unfold groupRel; infer_instance

/-- step7.sort_matches_by_competition_and_time.  Because step2 summaries
carry the competition as a plain string, the structured country field is
always absent and the country is produced by the keyword-matching
inference heuristic, passed here as a parameter. -/
def sort_matches_by_competition_and_time (inferCountry : M7 → String)
    (ms : List (String × M7)) : List (String × List (String × M7)) :=
  (List.insertionSort groupRel
    ((ms.foldl (fun gs p =>
        addToGroup gs (p.2.competition.getD "Unknown Competition") (inferCountry p.2) p)
        []).map
      (fun g => (g.1, g.2.1, List.insertionSort m7Rel g.2.2)))).map
    (fun g => (g.1, g.2.2))

instance : IsTotal (String × M7) m7Rel := by
  constructor
  intro a b
  unfold m7Rel
  rcases lt_trichotomy (statusOrder a.2.status_id) (statusOrder b.2.status_id) with h | h | h
  · exact Or.inl (Or.inl h)
  · rcases le_total a.2.match_id b.2.match_id with h2 | h2
    · exact Or.inl (Or.inr ⟨h, h2⟩)
    · exact Or.inr (Or.inr ⟨h.symm, h2⟩)
  · exact Or.inr (Or.inl h)

instance : IsTrans (String × M7) m7Rel := by
  constructor
  intro a b c hab hbc
  unfold m7Rel at *
  rcases hab with h1 | ⟨h1, h1s⟩ <;> rcases hbc with h2 | ⟨h2, h2s⟩
  · exact Or.inl (lt_trans h1 h2)
  · exact Or.inl (lt_of_lt_of_eq h1 h2)
  · exact Or.inl (lt_of_eq_of_lt h1 h2)
  · exact Or.inr ⟨h1.trans h2, le_trans h1s h2s⟩

instance : IsTotal (String × String × List (String × M7)) groupRel := by
  constructor
  intro a b
  unfold groupRel
  rcases lt_trichotomy (countryKey a.2.1) (countryKey b.2.1) with h | h | h
  · exact Or.inl (Or.inl h)
  · rcases le_total a.1 b.1 with h2 | h2
    · exact Or.inl (Or.inr ⟨h, h2⟩)
    · exact Or.inr (Or.inr ⟨h.symm, h2⟩)
  · exact Or.inr (Or.inl h)

instance : IsTrans (String × String × List (String × M7)) groupRel := by
  constructor
  intro a b c hab hbc
  unfold groupRel at *
  rcases hab with h1 | ⟨h1, h1s⟩ <;> rcases hbc with h2 | ⟨h2, h2s⟩
  · exact Or.inl (lt_trans h1 h2)
  · exact Or.inl (lt_of_lt_of_eq h1 h2)
  · exact Or.inl (lt_of_eq_of_lt h1 h2)
  · exact Or.inr ⟨h1.trans h2, le_trans h1s h2s⟩

/-! Helper lemmas. -/

theorem floor_le_pyRound (q : ℚ) : ⌊q⌋ ≤ pyRound q := by
  unfold pyRound
  split_ifs <;> omega

theorem pyRound_le_floor_add_one (q : ℚ) : pyRound q ≤ ⌊q⌋ + 1 := by
  unfold pyRound
  split_ifs <;> omega

theorem pyRound_eq_of_lt_half {q : ℚ} {f : ℤ} (h1 : (f : ℚ) ≤ q)
    (h2 : q - (f : ℚ) < 1 / 2) : pyRound q = f := by
  have hf : ⌊q⌋ = f := by
    rw [Int.floor_eq_iff]
    exact ⟨h1, by linarith⟩
  unfold pyRound
  rw [hf, if_pos h2]

theorem pyRound_eq_of_gt_half {q : ℚ} {f : ℤ} (h1 : (f : ℚ) ≤ q)
    (h2 : 1 / 2 < q - (f : ℚ)) (h3 : q < (f : ℚ) + 1) : pyRound q = f + 1 := by
  have hf : ⌊q⌋ = f := by
    rw [Int.floor_eq_iff]
    exact ⟨h1, by linarith⟩
  unfold pyRound
  rw [hf, if_neg (by linarith), if_pos h2]

theorem foldl_appendBatch_eq {α : Type} (bs : List α) :
    List.foldl appendBatch [] bs = bs.drop (bs.length - (MAX_HISTORY_ENTRIES + 1)) := by
  induction bs using List.reverseRecOn with
  | nil => rfl
  | append_singleton l a ih =>
    rw [List.foldl_append, List.foldl_cons, List.foldl_nil, ih]
    unfold appendBatch MAX_HISTORY_ENTRIES
    have hlen : (l.drop (l.length - (5 + 1))).length = l.length - (l.length - 6) := by
      rw [List.length_drop]
    rcases le_or_lt l.length 5 with h5 | h5
    · have h0 : l.length - (5 + 1) = 0 := by omega
      have h1 : (l ++ [a]).length - (5 + 1) = 0 := by
        rw [List.length_append]
        simp only [List.length_singleton]
        omega
      rw [h0, List.drop_zero, h1, List.drop_zero]
      split_ifs with h
      · have h2 : l.length - 5 = 0 := by omega
        rw [h2, List.drop_zero]
      · rfl
    · have h6 : 6 ≤ l.length := by omega
      rw [if_pos (by rw [hlen] at *; omega)]
      rw [List.drop_drop, List.length_drop]
      have h2 : l.length - (5 + 1) + (l.length - (l.length - (5 + 1)) - 5) = l.length - 5 := by
        omega
      rw [h2]
      have h3 : (l ++ [a]).length - (5 + 1) = l.length - 5 := by
        rw [List.length_append]
        simp only [List.length_singleton]
        omega
      rw [h3, List.drop_append_of_le_length (by omega)]

theorem conv_dec_char (d : ℚ) :
    convert_decimal_to_american (.num d)
      = (if 2 ≤ d then some (pyRound ((d - 1) * 100))
         else if 1 < d then some (pyRound (-100 / (d - 1)))
         else none) := by
  simp only [convert_decimal_to_american, pyFloat]
  by_cases h2 : 2 ≤ d
  · simp [h2]
  · by_cases h1 : 1 ≤ d
    · by_cases he : d = 1
      · subst he
        norm_num
      · have h1' : 1 < d := lt_of_le_of_ne h1 (Ne.symm he)
        simp [h2, h1, he, h1']
    · have h1' : ¬ 1 < d := fun h => h1 (le_of_lt h)
      simp [h2, h1, h1']

theorem conv_dec_pos {d : ℚ} (h : 2 ≤ d) : 0 < pyRound ((d - 1) * 100) := by
  have h100 : (100 : ℚ) ≤ (d - 1) * 100 := by nlinarith
  have hfl : (100 : ℤ) ≤ ⌊(d - 1) * 100⌋ := Int.le_floor.mpr (by push_cast; linarith)
  have := floor_le_pyRound ((d - 1) * 100)
  omega

theorem conv_dec_neg {d : ℚ} (h1 : 1 < d) (h2 : d < 2) : pyRound (-100 / (d - 1)) < 0 := by
  have hd : 0 < d - 1 := by linarith
  have hq : -100 / (d - 1) ≤ -100 := by
    rw [div_le_iff₀ hd]
    nlinarith
  have hfl : ⌊-100 / (d - 1)⌋ ≤ -100 := by
    calc ⌊-100 / (d - 1)⌋ ≤ ⌊(-100 : ℚ)⌋ := Int.floor_le_floor hq
    _ = -100 := by norm_num
  have := pyRound_le_floor_add_one (-100 / (d - 1))
  omega

theorem conv_hk_char (h : ℚ) :
    convert_hong_kong_to_american (.num h)
      = (if 1 ≤ h then some (pyRound (h * 100))
         else if 0 < h then some (pyRound (-100 / h))
         else none) := by
  simp only [convert_hong_kong_to_american, pyFloat]

theorem conv_hk_pos {h : ℚ} (h1 : 1 ≤ h) : 0 < pyRound (h * 100) := by
  have h100 : (100 : ℚ) ≤ h * 100 := by nlinarith
  have hfl : (100 : ℤ) ≤ ⌊h * 100⌋ := Int.le_floor.mpr (by push_cast; linarith)
  have := floor_le_pyRound (h * 100)
  omega

theorem conv_hk_neg {h : ℚ} (h0 : 0 < h) (h1 : h < 1) : pyRound (-100 / h) < 0 := by
  have hq : -100 / h ≤ -100 := by
    rw [div_le_iff₀ h0]
    nlinarith
  have hfl : ⌊-100 / h⌋ ≤ -100 := by
    calc ⌊-100 / h⌋ ≤ ⌊(-100 : ℚ)⌋ := Int.floor_le_floor hq
    _ = -100 := by norm_num
  have := pyRound_le_floor_add_one (-100 / h)
  omega

theorem jleB_refl (v : JVal) : jleB v v = true := by
  cases v <;> simp [jleB]

theorem jleB_total (a b : JVal) : jleB a b = true ∨ jleB b a = true := by
  cases a <;> cases b <;> simp [jleB] <;> exact le_total _ _

theorem jleB_trans {a b c : JVal} (h1 : jleB a b = true) (h2 : jleB b c = true) :
    jleB a c = true := by
  cases a <;> cases b <;> cases c <;> simp_all [jleB] <;> exact le_trans h1 h2

theorem tsRel_refl (e : Entry) : tsRel e e := jleB_refl _

instance : IsTotal Entry tsRel := ⟨fun _ _ => jleB_total _ _⟩

instance : IsTrans Entry tsRel := ⟨fun _ _ _ => jleB_trans⟩

theorem getLastD_mem {α : Type} : ∀ (l : List α) (d : α), l ≠ [] → l.getLastD d ∈ l
  | [], _, h => absurd rfl h
  | [a], d, _ => by simp [List.getLastD]
  | a :: b :: t, d, _ => by
    rw [List.getLastD_cons]
    exact List.mem_cons_of_mem a (getLastD_mem (b :: t) a (by simp))

theorem sorted_tsRel_getLastD : ∀ (L : List Entry), List.Sorted tsRel L →
    ∀ x ∈ L, tsRel x (L.getLastD [])
  | [], _, x, hx => absurd hx (by simp)
  | [a], _, x, hx => by
    simp only [List.mem_singleton] at hx
    subst hx
    simpa [List.getLastD] using tsRel_refl x
  | a :: b :: t, hs, x, hx => by
    rw [List.getLastD_cons]
    rcases List.mem_cons.mp hx with rfl | hx2
    · have hmem := getLastD_mem (b :: t) x (by simp)
      exact (List.sorted_cons.mp hs).1 _ hmem
    · have := sorted_tsRel_getLastD (b :: t) (List.sorted_cons.mp hs).2 x hx2
      rwa [List.getLastD_cons] at this ⊢

theorem lastByTimestamp_mem {g : List Entry} (h : g ≠ []) : lastByTimestamp g ∈ g := by
  unfold lastByTimestamp
  have hp := List.perm_insertionSort tsRel g
  have hne : List.insertionSort tsRel g ≠ [] := by
    intro h0
    apply h
    have hlen := hp.length_eq
    rw [h0] at hlen
    exact List.length_eq_zero.mp hlen.symm
  exact hp.mem_iff.mp (getLastD_mem _ _ hne)

theorem lastByTimestamp_max {g : List Entry} {x : Entry} (hx : x ∈ g) :
    tsRel x (lastByTimestamp g) := by
  unfold lastByTimestamp
  exact sorted_tsRel_getLastD _ (List.sorted_insertionSort tsRel g) x
    ((List.perm_insertionSort tsRel g).mem_iff.mpr hx)

theorem entryMinute_eq_some {mn mx : ℤ} {e : Entry} {m : ℤ}
    (h : entryMinute mn mx e = some m) :
    2 ≤ e.length ∧ minuteValue (e.getD 1 JVal.null) = some m ∧ mn ≤ m ∧ m ≤ mx := by
  unfold entryMinute at h
  split_ifs at h with hlen
  cases hmv : minuteValue (e.getD 1 JVal.null) with
  | none =>
    rw [hmv] at h
    have h2 : (none : Option ℤ) = some m := h
    simp at h2
  | some m2 =>
    rw [hmv] at h
    have h2 : (if mn ≤ m2 ∧ m2 ≤ mx then some m2 else none) = some m := h
    split_ifs at h2 with hrange
    have hm : m2 = m := Option.some.inj h2
    subst hm
    exact ⟨hlen, rfl, hrange.1, hrange.2⟩

theorem filterMap_self {α : Type} {f : α → Option α} :
    ∀ {l : List α}, (∀ a ∈ l, f a = some a) → l.filterMap f = l := by
  intro l
  induction l with
  | nil => intro _; rfl
  | cons a t ih =>
    intro h
    rw [List.filterMap_cons, h a (List.mem_cons_self a t),
      ih (fun b hb => h b (List.mem_cons_of_mem a hb))]

theorem nodup_filter_eq_singleton {m : ℤ} :
    ∀ {l : List ℤ}, l.Nodup → m ∈ l → l.filter (fun x => decide (x = m)) = [m] := by
  intro l
  induction l with
  | nil => intro _ h; simp at h
  | cons a t ih =>
    intro hnd hm
    rcases List.nodup_cons.mp hnd with ⟨hat, hndt⟩
    rcases List.mem_cons.mp hm with rfl | hmt
    · rw [List.filter_cons_of_pos (by simp)]
      rw [List.filter_eq_nil_iff.mpr (fun b hb => by
        simp only [decide_eq_true_eq]
        intro hbm
        exact hat (hbm ▸ hb))]
    · rw [List.filter_cons_of_neg (by
        simp only [decide_eq_true_eq]
        intro ham
        exact hat (ham ▸ hmt))]
      exact ih hndt hmt

theorem minuteKeys_nodup (mn mx : ℤ) (arr : List Entry) :
    (minuteKeys mn mx arr).Nodup := by
  unfold minuteKeys
  exact ((List.perm_insertionSort _ _).nodup_iff).mpr (List.nodup_dedup _)

theorem minuteKeys_sorted (mn mx : ℤ) (arr : List Entry) :
    List.Sorted (· ≤ ·) (minuteKeys mn mx arr) :=
  List.sorted_insertionSort _ _

theorem mem_minuteKeys {mn mx m : ℤ} {arr : List Entry} :
    m ∈ minuteKeys mn mx arr ↔ ∃ e ∈ arr, entryMinute mn mx e = some m := by
  unfold minuteKeys
  rw [(List.perm_insertionSort _ _).mem_iff, List.mem_dedup, List.mem_filterMap]

theorem mem_minuteGroup {mn mx m : ℤ} {arr : List Entry} {e : Entry} :
    e ∈ minuteGroup mn mx arr m ↔ e ∈ arr ∧ entryMinute mn mx e = some m := by
  unfold minuteGroup
  rw [List.mem_filter]
  simp

theorem minuteGroup_ne_nil {mn mx m : ℤ} {arr : List Entry}
    (h : m ∈ minuteKeys mn mx arr) : minuteGroup mn mx arr m ≠ [] := by
  rcases mem_minuteKeys.mp h with ⟨e, he, hm⟩
  intro h0
  have hmem : e ∈ minuteGroup mn mx arr m := mem_minuteGroup.mpr ⟨he, hm⟩
  rw [h0] at hmem
  simp at hmem

theorem pick_spec {mn mx m : ℤ} {arr : List Entry} (h : m ∈ minuteKeys mn mx arr) :
    lastByTimestamp (minuteGroup mn mx arr m) ∈ arr ∧
    entryMinute mn mx (lastByTimestamp (minuteGroup mn mx arr m)) = some m :=
  mem_minuteGroup.mp (lastByTimestamp_mem (minuteGroup_ne_nil h))

theorem filterMarket_filterMap (mn mx : ℤ) (arr : List Entry) :
    (filterMarket mn mx arr).filterMap (entryMinute mn mx) = minuteKeys mn mx arr := by
  unfold filterMarket
  rw [List.filterMap_map]
  exact filterMap_self (fun m hm => (pick_spec hm).2)

theorem entryMinute_iff_range {e : Entry} {m : ℤ} (hlen : 2 ≤ e.length)
    (hmv : minuteValue (e.getD 1 JVal.null) = some m) {mn mx : ℤ} :
    entryMinute mn mx e = some m ↔ mn ≤ m ∧ m ≤ mx := by
  unfold entryMinute
  rw [if_pos hlen, hmv]
  constructor
  · intro h
    have h2 : (if mn ≤ m ∧ m ≤ mx then some m else none) = some m := h
    by_contra hc
    rw [if_neg hc] at h2
    simp at h2
  · intro h
    show (if mn ≤ m ∧ m ≤ mx then some m else none) = some m
    rw [if_pos h]

/-! Claim theorems. -/

/-- C2 (counterexample): appending MAX_HISTORY_ENTRIES + 1 = 6 batches one
at a time to an empty step27 history store leaves all 6 batches stored, so
the persisted length exceeds the cap N = 5 after a save and the oldest
batch has not been evicted. -/
theorem history_cap_counterexample :
    List.foldl appendBatch ([] : List ℕ) [0, 1, 2, 3, 4, 5] = [0, 1, 2, 3, 4, 5] ∧
    MAX_HISTORY_ENTRIES < (List.foldl appendBatch ([] : List ℕ) [0, 1, 2, 3, 4, 5]).length := by
  constructor <;> decide

/-- C2 (amended): the step27 history update trims to the last
MAX_HISTORY_ENTRIES elements before appending, so after appending any batch
sequence to an empty store the persisted history is exactly the last
min(length, MAX_HISTORY_ENTRIES + 1) batches, in order, oldest evicted
first, and the stored length never exceeds MAX_HISTORY_ENTRIES + 1 = 6. -/
theorem history_fifo_cap_plus_one {α : Type} (bs : List α) :
    List.foldl appendBatch [] bs = bs.drop (bs.length - (MAX_HISTORY_ENTRIES + 1)) ∧
    (List.foldl appendBatch [] bs).length ≤ MAX_HISTORY_ENTRIES + 1 := by
  refine ⟨foldl_appendBatch_eq bs, ?_⟩
  rw [foldl_appendBatch_eq bs, List.length_drop]
  unfold MAX_HISTORY_ENTRIES
  omega

/-- C3 (code evaluation at the failing input): a live match whose id is
absent from match_details reaches step2.py line 656 with details = None and
the merge raises AttributeError instead of resolving the names to
"Unknown". -/
theorem merge_missing_details_raises :
    merge_and_summarize [{ id := "1" }] [] [] [] [] [] = .error .attributeError := by
  rfl

/-- C9: when loading the input document fails with file-not-found or a JSON
decode error, step2.main catches the exception, logs it, writes no output
and terminates normally. -/
theorem main_load_error_soft (e : LoadError) :
    mainStep2 (.error e) = { output := none, raised := false } := rfl

/-- C10: company selection tests the raw arrays, but the published arrays
are minute-filtered: a company whose only money-line entry sits at minute 1
is still selected, so the summary carries a non-null company id and name
while all four published market arrays are empty. -/
theorem selected_company_empty_markets :
    (merge_and_summarize [{ id := "1" }] [("1", [{}])]
        [("1", [("2", { eu := [[JVal.num 100, JVal.str "1", JVal.num 2, JVal.num 3,
          JVal.num 4, JVal.num 1, JVal.num 0, JVal.str "0-0"]] })])] [] [] []).map
      (fun l => l.map (fun s =>
        (s.oddsF.odds_company_id, s.oddsF.odds_company_name,
         s.oddsF.money_line, s.oddsF.spread, s.oddsF.over_under, s.oddsF.corners)))
      = .ok [(some "2", some "BET365", [], [], [], [])] := by
  rfl

/-- C1: minute-filtering a market array (the per-market body of
filter_odds_by_minutes) retains only entries from the input whose minute
slot parses to an integer in [2, 6] (entries with an empty or unparseable
minute are dropped silently); the acceptance test keeps a parsed minute m
exactly when 2 ≤ m ≤ 6, so minutes 2 and 6 are kept and 1 and 7 dropped;
every input entry with an accepted minute m gives rise to a retained entry
for m, namely one of the minute-m group carrying its maximum timestamp;
and the parsed minutes of the output are strictly increasing, so no two
retained entries share a minute and the output ascends by minute. -/
theorem minute_filter_window (arr : List Entry) :
    (∀ e ∈ filterMarket 2 6 arr,
        e ∈ arr ∧ 2 ≤ e.length ∧
        ∃ m : ℤ, entryMinute 2 6 e = some m ∧
          minuteValue (e.getD 1 JVal.null) = some m ∧ 2 ≤ m ∧ m ≤ 6)
  ∧ List.Sorted (· < ·) ((filterMarket 2 6 arr).filterMap (entryMinute 2 6))
  ∧ (∀ e ∈ filterMarket 2 6 arr, ∀ e2 ∈ arr,
        entryMinute 2 6 e2 = entryMinute 2 6 e → tsRel e2 e)
  ∧ (∀ e2 ∈ arr, ∀ m : ℤ, entryMinute 2 6 e2 = some m →
        ∃ e ∈ filterMarket 2 6 arr, entryMinute 2 6 e = some m ∧
          e ∈ minuteGroup 2 6 arr m ∧ ∀ x ∈ minuteGroup 2 6 arr m, tsRel x e)
  ∧ (∀ (e : Entry) (m : ℤ), 2 ≤ e.length →
        minuteValue (e.getD 1 JVal.null) = some m →
        (entryMinute 2 6 e = some m ↔ 2 ≤ m ∧ m ≤ 6)) := by
  refine ⟨?_, ?_, ?_, ?_, ?_⟩
  · intro e he
    unfold filterMarket at he
    rcases List.mem_map.mp he with ⟨m, hm, rfl⟩
    obtain ⟨harr, hP⟩ := pick_spec hm
    obtain ⟨hlen, hmv, h2, h6⟩ := entryMinute_eq_some hP
    exact ⟨harr, hlen, m, hP, hmv, h2, h6⟩
  · rw [filterMarket_filterMap]
    have hs : List.Pairwise (· ≤ ·) (minuteKeys 2 6 arr) := minuteKeys_sorted 2 6 arr
    have hn : List.Pairwise (· ≠ ·) (minuteKeys 2 6 arr) := minuteKeys_nodup 2 6 arr
    exact (hs.and hn).imp (fun h => lt_of_le_of_ne h.1 h.2)
  · intro e he e2 he2 heq
    unfold filterMarket at he
    rcases List.mem_map.mp he with ⟨m, hm, rfl⟩
    have hP := (pick_spec hm).2
    rw [hP] at heq
    exact lastByTimestamp_max (mem_minuteGroup.mpr ⟨he2, heq⟩)
  · intro e2 he2 m hm
    have hk : m ∈ minuteKeys 2 6 arr := mem_minuteKeys.mpr ⟨e2, he2, hm⟩
    refine ⟨lastByTimestamp (minuteGroup 2 6 arr m), ?_, (pick_spec hk).2,
      lastByTimestamp_mem (minuteGroup_ne_nil hk), fun x hx => lastByTimestamp_max hx⟩
    unfold filterMarket
    exact List.mem_map_of_mem _ hk
  · intro e m hlen hmv
    exact entryMinute_iff_range hlen hmv

/-- Witness for the minute-filter theorem at a concrete boundary-covering
array with minutes 1, 2, 6, 7 and a duplicated minute 3: the timestamp-7
minute-3 entry is retained and dominates the timestamp-5 one, the
minute-2 and minute-6 entries are represented in the output, and the
acceptance test materializes keep-at-2 and drop-at-1. -/
theorem minute_filter_window_witness :
    ([JVal.num 7, JVal.str "3"] ∈
        ([[JVal.num 1, JVal.str "1"], [JVal.num 2, JVal.str "2"],
          [JVal.num 3, JVal.str "6"], [JVal.num 4, JVal.str "7"],
          [JVal.num 5, JVal.str "3"], [JVal.num 7, JVal.str "3"]] : List Entry)) ∧
    tsRel [JVal.num 5, JVal.str "3"] [JVal.num 7, JVal.str "3"] ∧
    (∃ e ∈ filterMarket 2 6
        [[JVal.num 1, JVal.str "1"], [JVal.num 2, JVal.str "2"],
         [JVal.num 3, JVal.str "6"], [JVal.num 4, JVal.str "7"],
         [JVal.num 5, JVal.str "3"], [JVal.num 7, JVal.str "3"]],
      entryMinute 2 6 e = some 2) ∧
    (∃ e ∈ filterMarket 2 6
        [[JVal.num 1, JVal.str "1"], [JVal.num 2, JVal.str "2"],
         [JVal.num 3, JVal.str "6"], [JVal.num 4, JVal.str "7"],
         [JVal.num 5, JVal.str "3"], [JVal.num 7, JVal.str "3"]],
      entryMinute 2 6 e = some 6) ∧
    (entryMinute 2 6 [JVal.num 2, JVal.str "2"] = some 2 ↔ (2 ≤ (2 : ℤ) ∧ (2 : ℤ) ≤ 6)) ∧
    (entryMinute 2 6 [JVal.num 1, JVal.str "1"] = some 1 ↔ (2 ≤ (1 : ℤ) ∧ (1 : ℤ) ≤ 6)) := by
  have T := minute_filter_window
    [[JVal.num 1, JVal.str "1"], [JVal.num 2, JVal.str "2"],
     [JVal.num 3, JVal.str "6"], [JVal.num 4, JVal.str "7"],
     [JVal.num 5, JVal.str "3"], [JVal.num 7, JVal.str "3"]]
  have hmem : [JVal.num 7, JVal.str "3"] ∈
      filterMarket 2 6
        [[JVal.num 1, JVal.str "1"], [JVal.num 2, JVal.str "2"],
         [JVal.num 3, JVal.str "6"], [JVal.num 4, JVal.str "7"],
         [JVal.num 5, JVal.str "3"], [JVal.num 7, JVal.str "3"]] := by
    decide
  refine ⟨(T.1 _ hmem).1, T.2.2.1 _ hmem _ (by decide) (by decide), ?_, ?_,
    T.2.2.2.2 _ 2 (by decide) (by decide), T.2.2.2.2 _ 1 (by decide) (by decide)⟩
  · rcases T.2.2.2.1 [JVal.num 2, JVal.str "2"] (by decide) 2 (by decide) with
      ⟨e, he, hP, _⟩
    exact ⟨e, he, hP⟩
  · rcases T.2.2.2.1 [JVal.num 3, JVal.str "6"] (by decide) 6 (by decide) with
      ⟨e, he, hP, _⟩
    exact ⟨e, he, hP⟩

theorem lastByTimestamp_singleton (e : Entry) : lastByTimestamp [e] = e := rfl

theorem filterMarket_idem (mn mx : ℤ) (arr : List Entry) :
    filterMarket mn mx (filterMarket mn mx arr) = filterMarket mn mx arr := by
  have hkeys : minuteKeys mn mx (filterMarket mn mx arr) = minuteKeys mn mx arr := by
    show List.insertionSort (· ≤ ·)
        (((filterMarket mn mx arr).filterMap (entryMinute mn mx)).dedup)
      = minuteKeys mn mx arr
    rw [filterMarket_filterMap]
    rw [List.dedup_eq_self.mpr (minuteKeys_nodup mn mx arr)]
    exact List.Sorted.insertionSort_eq (minuteKeys_sorted mn mx arr)
  have hgroup : ∀ m ∈ minuteKeys mn mx arr,
      minuteGroup mn mx (filterMarket mn mx arr) m
        = [lastByTimestamp (minuteGroup mn mx arr m)] := by
    intro m hm
    show ((minuteKeys mn mx arr).map
        (fun k => lastByTimestamp (minuteGroup mn mx arr k))).filter
        (fun e => decide (entryMinute mn mx e = some m))
      = [lastByTimestamp (minuteGroup mn mx arr m)]
    rw [List.filter_map]
    have hcongr : ∀ k ∈ minuteKeys mn mx arr,
        ((fun e => decide (entryMinute mn mx e = some m)) ∘
          (fun k => lastByTimestamp (minuteGroup mn mx arr k))) k
          = decide (k = m) := by
      intro k hk
      simp only [Function.comp]
      rw [(pick_spec hk).2]
      simp
    rw [List.filter_congr hcongr]
    rw [nodup_filter_eq_singleton (minuteKeys_nodup mn mx arr) hm]
    rfl
  show (minuteKeys mn mx (filterMarket mn mx arr)).map
      (fun m => lastByTimestamp (minuteGroup mn mx (filterMarket mn mx arr) m))
      = filterMarket mn mx arr
  rw [hkeys]
  have hrhs : filterMarket mn mx arr
      = (minuteKeys mn mx arr).map
          (fun m => lastByTimestamp (minuteGroup mn mx arr m)) := rfl
  conv_rhs => rw [hrhs]
  apply List.map_congr_left
  intro m hm
  rw [hgroup m hm]
  exact lastByTimestamp_singleton _

/-- C8: the minute filter is idempotent: applying filter_odds_by_minutes to
its own output returns every market array, and so the whole mapping,
unchanged. -/
theorem minute_filter_idempotent (odds_data : CompanyOdds) :
    filter_odds_by_minutes (filter_odds_by_minutes odds_data)
      = filter_odds_by_minutes odds_data := by
  unfold filter_odds_by_minutes
  simp only [filterMarket_idem]

/-- C4: decimal→American conversion is round((d-1)*100) positive for
d ≥ 2, round(-100/(d-1)) negative for 1 < d < 2, and null for d < 1 and at
the d = 1 division-by-zero boundary; 2.00 ↦ +100, 1.50 ↦ -200,
1.66 ↦ -152, and positive results render with a leading plus sign. -/
theorem decimal_to_american_conversion :
    (∀ d : ℚ,
      convert_decimal_to_american (.num d)
        = (if 2 ≤ d then some (pyRound ((d - 1) * 100))
           else if 1 < d then some (pyRound (-100 / (d - 1)))
           else none)
      ∧ (∀ z : ℤ, convert_decimal_to_american (.num d) = some z →
            ((0 < z ↔ 2 ≤ d) ∧ (z < 0 ↔ 1 < d ∧ d < 2))))
  ∧ convert_decimal_to_american (.num 2) = some 100
  ∧ convert_decimal_to_american (.num (3 / 2)) = some (-200)
  ∧ convert_decimal_to_american (.num (166 / 100)) = some (-152)
  ∧ convert_decimal_to_american (.num 1) = none
  ∧ (∀ d : ℚ, d < 1 → convert_decimal_to_american (.num d) = none)
  ∧ format_american (convert_decimal_to_american (.num 2)) = JVal.str "+100"
  ∧ (∀ z : ℤ, 0 < z → format_american (some z) = JVal.str ("+" ++ toString z)) := by
  have hchar := conv_dec_char
  have h2 : convert_decimal_to_american (.num 2) = some 100 := by
    rw [hchar]
    norm_num
    exact pyRound_eq_of_lt_half (f := 100) (by norm_num) (by norm_num)
  refine ⟨?_, h2, ?_, ?_, ?_, ?_, ?_, ?_⟩
  · intro d
    refine ⟨hchar d, ?_⟩
    intro z hz
    rw [hchar d] at hz
    split_ifs at hz with hd2 hd1
    · have hzv : pyRound ((d - 1) * 100) = z := Option.some.inj hz
      have hpos : 0 < z := hzv ▸ conv_dec_pos hd2
      constructor
      · exact iff_of_true hpos hd2
      · exact iff_of_false (by omega) (fun hc => absurd hd2 (not_le.mpr hc.2))
    · have hzv : pyRound (-100 / (d - 1)) = z := Option.some.inj hz
      have hneg : z < 0 := hzv ▸ conv_dec_neg hd1 (not_le.mp hd2)
      constructor
      · exact iff_of_false (by omega) hd2
      · exact iff_of_true hneg ⟨hd1, not_le.mp hd2⟩
  · rw [hchar]
    norm_num
    exact pyRound_eq_of_lt_half (f := -200) (by norm_num) (by norm_num)
  · rw [hchar]
    norm_num
    exact pyRound_eq_of_lt_half (f := -152) (by norm_num) (by norm_num)
  · rw [hchar]
    norm_num
  · intro d hd
    rw [hchar]
    rw [if_neg (by linarith), if_neg (by linarith)]
  · rw [h2]
    rfl
  · intro z hz
    simp only [format_american]
    rw [if_pos hz]

/-- Witness for the decimal-conversion theorem: the sign equivalences and
the invalid-input clause applied at concrete inputs. -/
theorem decimal_to_american_conversion_witness :
    ((0 < (100 : ℤ)) ↔ (2 ≤ (2 : ℚ))) ∧
    (((-200 : ℤ) < 0) ↔ (1 < (3 / 2 : ℚ) ∧ (3 / 2 : ℚ) < 2)) ∧
    convert_decimal_to_american (.num (1 / 2)) = none ∧
    format_american (some 7) = JVal.str ("+" ++ toString (7 : ℤ)) := by
  have T := decimal_to_american_conversion
  exact ⟨((T.1 2).2 100 T.2.1).1, ((T.1 (3 / 2)).2 (-200) T.2.2.1).2,
    T.2.2.2.2.2.1 (1 / 2) (by norm_num), T.2.2.2.2.2.2.2 7 (by norm_num)⟩

/-- C5: Hong-Kong→American conversion is round(h*100) positive for h ≥ 1,
round(-100/h) negative for 0 < h < 1, null for h ≤ 0 (1.50 ↦ +150,
0.85 ↦ -118); and for the spread, over/under and corners markets
convert_odds_array passes the middle slot (index 3, the handicap or total
line) through to the American entry unconverted. -/
theorem hong_kong_to_american_conversion :
    (∀ h : ℚ,
      convert_hong_kong_to_american (.num h)
        = (if 1 ≤ h then some (pyRound (h * 100))
           else if 0 < h then some (pyRound (-100 / h))
           else none)
      ∧ (∀ z : ℤ, convert_hong_kong_to_american (.num h) = some z →
            ((0 < z ↔ 1 ≤ h) ∧ (z < 0 ↔ (0 < h ∧ h < 1)))))
  ∧ convert_hong_kong_to_american (.num (3 / 2)) = some 150
  ∧ convert_hong_kong_to_american (.num (17 / 20)) = some (-118)
  ∧ (∀ h : ℚ, h ≤ 0 → convert_hong_kong_to_american (.num h) = none)
  ∧ (∀ t ∈ (["spread", "over_under", "corners"] : List String),
      ∀ (arr : List Entry) (e : Entry),
        (convert_odds_array arr t).1 = arr ∧
        (convertEntry t e).getD 3 JVal.null = e.getD 3 JVal.null) := by
  refine ⟨?_, ?_, ?_, ?_, ?_⟩
  · intro h
    refine ⟨conv_hk_char h, ?_⟩
    intro z hz
    rw [conv_hk_char h] at hz
    split_ifs at hz with h1 h0
    · have hzv : pyRound (h * 100) = z := Option.some.inj hz
      have hpos : 0 < z := hzv ▸ conv_hk_pos h1
      constructor
      · exact iff_of_true hpos h1
      · exact iff_of_false (by omega) (fun hc => absurd h1 (not_le.mpr hc.2))
    · have hzv : pyRound (-100 / h) = z := Option.some.inj hz
      have hneg : z < 0 := hzv ▸ conv_hk_neg h0 (not_le.mp h1)
      constructor
      · exact iff_of_false (by omega) h1
      · exact iff_of_true hneg ⟨h0, not_le.mp h1⟩
  · rw [conv_hk_char]
    norm_num
    exact pyRound_eq_of_lt_half (f := 150) (by norm_num) (by norm_num)
  · rw [conv_hk_char]
    norm_num
    exact pyRound_eq_of_lt_half (f := -118) (by norm_num) (by norm_num)
  · intro h hh
    rw [conv_hk_char]
    rw [if_neg (by linarith), if_neg (by linarith)]
  · intro t ht arr e
    fin_cases ht <;> exact ⟨rfl, rfl⟩

/-- Witness for the Hong-Kong-conversion theorem: sign equivalences,
invalid input and middle-slot pass-through at concrete inputs. -/
theorem hong_kong_to_american_conversion_witness :
    ((0 < (150 : ℤ)) ↔ (1 ≤ (3 / 2 : ℚ))) ∧
    (((-118 : ℤ) < 0) ↔ (0 < (17 / 20 : ℚ) ∧ (17 / 20 : ℚ) < 1)) ∧
    convert_hong_kong_to_american (.num 0) = none ∧
    (convertEntry "spread" [JVal.num 1, JVal.str "3", JVal.num 1, JVal.str "2.5",
        JVal.num 1, JVal.num 2, JVal.num 0, JVal.str "0-0"]).getD 3 JVal.null
      = JVal.str "2.5" := by
  have T := hong_kong_to_american_conversion
  refine ⟨((T.1 (3 / 2)).2 150 T.2.1).1, ((T.1 (17 / 20)).2 (-118) T.2.2.1).2,
    T.2.2.2.1 0 (by norm_num), ?_⟩
  have hmid := (T.2.2.2.2 "spread" (by simp)
    [] [JVal.num 1, JVal.str "3", JVal.num 1, JVal.str "2.5",
        JVal.num 1, JVal.num 2, JVal.num 0, JVal.str "0-0"]).2
  rw [hmid]
  rfl

/-- C6: the merge selects the first company of PREFERRED_COMPANIES whose
raw odds have a non-empty array among money_line, spread, over_under
(corners alone never qualifies); with no qualifying company the summary
carries empty arrays for all four markets and null company id and name. -/
theorem company_selection_first_preferred (raw_odds : List (String × CompanyOdds)) :
    (∀ cid, selectCompany raw_odds = some cid →
        cid ∈ PREFERRED_COMPANIES ∧ qualifies raw_odds cid = true ∧
        ∃ l1 l2, PREFERRED_COMPANIES = l1 ++ cid :: l2 ∧
          ∀ c ∈ l1, qualifies raw_odds c = false)
  ∧ (∀ cid co, raw_odds.lookup cid = some co →
        (qualifies raw_odds cid = true ↔
          (co.money_line ≠ [] ∨ co.spread ≠ [] ∨ co.over_under ≠ [])))
  ∧ (selectCompany raw_odds = none →
        (buildOddsFields raw_odds).money_line = [] ∧
        (buildOddsFields raw_odds).money_line_american = [] ∧
        (buildOddsFields raw_odds).spread = [] ∧
        (buildOddsFields raw_odds).spread_american = [] ∧
        (buildOddsFields raw_odds).over_under = [] ∧
        (buildOddsFields raw_odds).over_under_american = [] ∧
        (buildOddsFields raw_odds).corners = [] ∧
        (buildOddsFields raw_odds).corners_american = [] ∧
        (buildOddsFields raw_odds).odds_company_id = none ∧
        (buildOddsFields raw_odds).odds_company_name = none) := by
  refine ⟨?_, ?_, ?_⟩
  · intro cid h
    unfold selectCompany at h
    rcases List.find?_eq_some.mp h with ⟨hq, l1, l2, hsplit, hprev⟩
    refine ⟨?_, hq, l1, l2, hsplit, ?_⟩
    · rw [hsplit]
      exact List.mem_append_right _ (List.mem_cons_self _ _)
    · intro c hc
      simpa using hprev c hc
  · intro cid co hco
    unfold qualifies
    rw [hco]
    unfold hasData
    simp [List.isEmpty_iff]
    tauto
  · intro h
    unfold buildOddsFields
    rw [h]
    exact ⟨rfl, rfl, rfl, rfl, rfl, rfl, rfl, rfl, rfl, rfl⟩

/-- Witness for the company-selection theorem: with only company "3"
carrying data, "3" is selected, qualifies and lies in the preference
list. -/
theorem company_selection_first_preferred_witness :
    ("3" : String) ∈ PREFERRED_COMPANIES ∧
    qualifies [("3", ({ money_line := [[JVal.str "t"]] } : CompanyOdds))] "3" = true := by
  have h := (company_selection_first_preferred
    [("3", ({ money_line := [[JVal.str "t"]] } : CompanyOdds))]).1 "3" (by rfl)
  exact ⟨h.1, h.2.1⟩

/-- C7: step7 keeps a summary iff its status_id lies in the in-play set
2..7 (so of a status-4 and a status-1 match only the first survives), and
inside each competition group of the sort stage the matches are ordered by
the fixed status priority 2,3,4,5,6,7 and then by match id. -/
theorem status_filter_and_group_order (inferCountry : M7 → String)
    (ms : List (String × M7)) :
    (∀ p : String × M7, p ∈ filterStep7 ms ↔
        p ∈ ms ∧ ∃ s, p.2.status_id = some s ∧ s ∈ STATUS_FILTER)
  ∧ (∀ A B : String × M7, A.2.status_id = some 4 → B.2.status_id = some 1 →
        filterStep7 [A, B] = [A])
  ∧ (∀ comp g, (comp, g) ∈ sort_matches_by_competition_and_time inferCountry ms →
        List.Sorted m7Rel g) := by
  refine ⟨?_, ?_, ?_⟩
  · intro p
    unfold filterStep7
    rw [List.mem_filter]
    constructor
    · rintro ⟨hmem, hpred⟩
      refine ⟨hmem, ?_⟩
      cases hst : p.2.status_id with
      | none => rw [hst] at hpred; simp at hpred
      | some s =>
        rw [hst] at hpred
        exact ⟨s, rfl, by simpa using hpred⟩
    · rintro ⟨hmem, s, hst, hs⟩
      refine ⟨hmem, ?_⟩
      rw [hst]
      simpa using hs
  · intro A B hA hB
    unfold filterStep7
    simp [List.filter, hA, hB, STATUS_FILTER]
  · intro comp g hg
    unfold sort_matches_by_competition_and_time at hg
    rcases List.mem_map.mp hg with ⟨g0, hg0, heq⟩
    have hg0m := (List.perm_insertionSort groupRel _).mem_iff.mp hg0
    rcases List.mem_map.mp hg0m with ⟨g1, hg1, heq1⟩
    have hgs : g = List.insertionSort m7Rel g1.2.2 := by
      rw [← heq1] at heq
      exact (congrArg Prod.snd heq).symm
    rw [hgs]
    exact List.sorted_insertionSort m7Rel _

/-- Witness for the status-filter theorem: of a status-4 and a status-1
match only the first survives, and the concrete sorted group is ordered. -/
theorem status_filter_and_group_order_witness :
    filterStep7 [("a", ({ match_id := "a", status_id := some 4 } : M7)),
                 ("b", ({ match_id := "b", status_id := some 1 } : M7))]
      = [("a", ({ match_id := "a", status_id := some 4 } : M7))] ∧
    List.Sorted m7Rel [("a", ({ match_id := "a", status_id := some 4 } : M7)),
                       ("b", ({ match_id := "b", status_id := some 1 } : M7))] := by
  constructor
  · exact (status_filter_and_group_order (fun _ => "Unknown")
      [("a", { match_id := "a", status_id := some 4 }),
       ("b", { match_id := "b", status_id := some 1 })]).2.1 _ _ rfl rfl
  · exact (status_filter_and_group_order (fun _ => "Unknown")
      [("a", { match_id := "a", status_id := some 4 }),
       ("b", { match_id := "b", status_id := some 1 })]).2.2
      "Unknown Competition" _ (by decide)

end Pipeline
